import Mathlib

set_option linter.unusedVariables false

/-!
Verification of the MarketingMix analytics backend (`pdfz` repository).

This file gives a shallow embedding, in Lean 4, of the parts of the
TypeScript backend that the specification talks about:

* `src/backend/src/utils/validation.ts` — `validateMinimumDataDays`,
  `validateDateRange`;
* `src/backend/src/routes/forecast.ts` — horizon validation of
  `GET /api/v1/forecast`;
* `src/backend/src/routes/optimizer.ts` — budget validation of
  `POST /api/v1/optimizer/run`;
* the attribution job-status route `GET /api/v1/models/attribution/:id`
  (cache query on `attribution_results` plus the ML-service fallback);
* `src/backend/src/models/MarketingMetrics.ts` — `bulkInsert` and its
  upsert (`ON CONFLICT ... DO UPDATE`) against `marketing_daily_metrics`,
  wrapped in a `BEGIN`/`COMMIT`/`ROLLBACK` transaction;
* `src/backend/src/services/redis.ts` — `getCached`/`setCached` and the
  cache middleware built on them;
* `src/backend/src/utils/channelNormalization.ts` — `normalizeChannel`
  and the global `CHANNEL_MAP`.

Conventions of the embedding: JavaScript numbers that carry money are
modelled as `ℚ`; timestamps and day counts as `ℤ`; nullable values as
`Option`; a thrown exception / rejected promise as `Except`.  Strings are
Lean `String`s (a list of characters), and the ASCII case conversions of
`String.prototype.toLowerCase`/`toUpperCase` — all channel aliases are
ASCII — are modelled on the ASCII range.
-/

namespace MarketingMix

/-! ### validation.ts: validateMinimumDataDays -/

/-- Result shape `{ valid: boolean; error?: string }` of the validators in
`src/backend/src/utils/validation.ts`. -/
structure ValidationResult where
  valid : Bool
  error : Option String
deriving DecidableEq, Repr

/-- Embedding of `validateMinimumDataDays(accountId, dates)`
(`src/backend/src/utils/validation.ts:34-45`).  `new Set(dates).size` is the
number of distinct elements of `dates`, i.e. `dates.dedup.length`. -/
def validateMinimumDataDays (accountId : String) (dates : List String) :
    ValidationResult :=
  if dates.length < 60 then
    ⟨false, some "Minimum 60 days of data required for attribution"⟩
  else if dates.dedup.length < 60 then
    ⟨false, some "Minimum 60 unique days of data required"⟩
  else
    ⟨true, none⟩

/-! ### forecast.ts: horizon validation -/

/-- Model of `parseInt(req.query.horizon as string) || 30`
(`src/backend/src/routes/forecast.ts:15`).  `none` models a missing or
unparsable (`NaN`) query parameter; both `NaN` and a parsed `0` are falsy
in JavaScript, so they fall back to the default `30`. -/
def effectiveHorizon (horizonParam : Option ℤ) : ℤ :=
  match horizonParam with
  | none => 30
  | some n => if n = 0 then 30 else n

/-- Outcome of the forecast route, up to the horizon check: either the
400 rejection, or the request is forwarded to the ML service with the
effective horizon. -/
inductive ForecastResp where
  | badRequest (message : String)
  | proxy (horizon : ℤ)
deriving DecidableEq, Repr

/-- Embedding of the horizon validation of `GET /api/v1/forecast`
(`src/backend/src/routes/forecast.ts:15-31`). -/
def forecastHandler (horizonParam : Option ℤ) : ForecastResp :=
  let horizon := effectiveHorizon horizonParam
  if horizon < 7 ∨ 90 < horizon then
    .badRequest "Horizon must be between 7 and 90 days"
  else
    .proxy horizon

/-! ### optimizer.ts: budget validation -/

/-- Outcome of the optimizer route, up to the budget check. -/
inductive OptimizerResp where
  | badRequest (message : String)
  | proxy (budget : ℚ)
deriving DecidableEq, Repr

/-- Embedding of the budget validation of `POST /api/v1/optimizer/run`
(`src/backend/src/routes/optimizer.ts:15-30`).  `req.body.budget` is
modelled as `Option ℚ` (`none` = absent).  The guard
`!budget || budget <= 0` rejects an absent budget and, for a numeric
budget `b`, exactly the case `b ≤ 0` (`!b` is true only for `b = 0`,
which `b ≤ 0` already covers). -/
def optimizerHandler (budget : Option ℚ) : OptimizerResp :=
  match budget with
  | none => .badRequest "Budget must be greater than 0"
  | some b =>
    if b ≤ 0 then .badRequest "Budget must be greater than 0"
    else .proxy b

/-! ### Attribution job-status route (GET /api/v1/models/attribution/:id) -/

/-- Row of the `attribution_results` table as the route reads it:
`payload` stands for the stored result columns that `SELECT *` returns. -/
structure AttributionRow where
  account_id : String
  id : String
  expires_at : Option ℤ
  payload : String
deriving DecidableEq, Repr

/-- Condition `expires_at IS NULL OR expires_at > NOW()` of the cache
query; `now` is the database clock at lookup time. -/
def notExpired (expires_at : Option ℤ) (now : ℤ) : Bool :=
  match expires_at with
  | none => true
  | some t => decide (now < t)

/-- Embedding of the cache query
`SELECT * FROM attribution_results WHERE account_id = $1 AND id = $2 AND
(expires_at IS NULL OR expires_at > NOW())` run by the job-status route. -/
def cacheQuery (table : List AttributionRow) (accountId jobId : String)
    (now : ℤ) : List AttributionRow :=
  table.filter fun r =>
    r.account_id == accountId && r.id == jobId && notExpired r.expires_at now

/-- Body `{ status, data, message }` returned by the ML service for
`GET /attribution/:id`; `data` is the completed result payload when
present. -/
structure MlStatus where
  status : String
  data : Option String
  message : Option String
deriving DecidableEq, Repr

/-- Responses the job-status route can produce.  Note the route has no
404 branch at all: every path is a success body, a status body, or the
502 produced when the ML-service call throws. -/
inductive RouteResp where
  | success (payload : String)
  | statusInfo (status : String) (message : Option String) (job_id : String)
  | badGateway
deriving DecidableEq, Repr

/-- JavaScript truthiness of an optional string (`undefined`/`null` and
the empty string are falsy). -/
def jsTruthyStr : Option String → Bool
  | none => false
  | some s => !(s == "")

/-- The route's fallback when the cache query returns no row: it calls
`GET mlServiceUrl/attribution/:id` with only the job id (`Except.error`
models the axios call throwing, answered with 502) and translates the
body:  `completed` with a truthy `data` becomes a success response,
anything else is forwarded as a status body with
`response.data.status || 'unknown'`. -/
def mlFallback (jobId : String) (ml : Except Unit MlStatus) : RouteResp :=
  match ml with
  | .error _ => .badGateway
  | .ok resp =>
    if resp.status == "completed" && jsTruthyStr resp.data then
      .success (resp.data.getD "")
    else
      .statusInfo (if resp.status == "" then "unknown" else resp.status)
        resp.message jobId

/-- Embedding of the handler of `GET /api/v1/models/attribution/:id`:
serve the first row of the account-scoped, non-expired cache query, else
fall through to the ML service. -/
def getAttributionHandler (table : List AttributionRow)
    (accountId jobId : String) (now : ℤ) (ml : Except Unit MlStatus) :
    RouteResp :=
  match cacheQuery table accountId jobId now with
  | r :: _ => .success r.payload
  | [] => mlFallback jobId ml

/-! ### MarketingMetrics.bulkInsert and the metrics store -/

/-- `MetricInput` of `src/backend/src/models/MarketingMetrics.ts`. -/
structure MetricInput where
  date : String
  channel : String
  spend : ℚ
  revenue : Option ℚ
  impressions : Option ℤ
  clicks : Option ℤ
  conversions : Option ℤ
  new_customers : Option ℤ
  returning_customers : Option ℤ
deriving DecidableEq, Repr

/-- Row of the `marketing_daily_metrics` table (migration
`001_initial_schema.sql`), up to the generated `id`/timestamps that play
no role in the uniqueness invariant. -/
structure MetricRow where
  account_id : String
  date : String
  channel : String
  spend : ℚ
  revenue : Option ℚ
  impressions : Option ℤ
  clicks : Option ℤ
  conversions : Option ℤ
  new_customers : Option ℤ
  returning_customers : Option ℤ
deriving DecidableEq, Repr

/-- The key of `UNIQUE(account_id, date, channel)`. -/
def MetricRow.key (r : MetricRow) : String × String × String :=
  (r.account_id, r.date, r.channel)

/-- `metric.revenue || null` in the insert parameter list (`0` is falsy
and becomes `NULL`); `spend` is passed through without this guard. -/
def jsOrNullQ : Option ℚ → Option ℚ
  | none => none
  | some x => if x = 0 then none else some x

/-- `metric.clicks || null` and the other integer columns. -/
def jsOrNullZ : Option ℤ → Option ℤ
  | none => none
  | some x => if x = 0 then none else some x

/-- The parameter row `[$1 .. $10]` the INSERT binds for one metric. -/
def toRow (accountId : String) (m : MetricInput) : MetricRow :=
  { account_id := accountId
    date := m.date
    channel := m.channel
    spend := m.spend
    revenue := jsOrNullQ m.revenue
    impressions := jsOrNullZ m.impressions
    clicks := jsOrNullZ m.clicks
    conversions := jsOrNullZ m.conversions
    new_customers := jsOrNullZ m.new_customers
    returning_customers := jsOrNullZ m.returning_customers }

/-- The `DO UPDATE SET` clause: all metric columns of the existing row
are overwritten with the excluded (incoming) row's values; the key
columns are untouched. -/
def updateFields (r incoming : MetricRow) : MetricRow :=
  { r with
    spend := incoming.spend
    revenue := incoming.revenue
    impressions := incoming.impressions
    clicks := incoming.clicks
    conversions := incoming.conversions
    new_customers := incoming.new_customers
    returning_customers := incoming.returning_customers }

/-- One `INSERT ... ON CONFLICT (account_id, date, channel) DO UPDATE`
against the store: if a row with the same key exists it is updated in
place, otherwise the new row is appended. -/
def upsertMetric (store : List MetricRow) (row : MetricRow) :
    List MetricRow :=
  if store.any (fun r => decide (r.key = row.key)) then
    store.map fun r => if r.key = row.key then updateFields r row else r
  else
    store ++ [row]

/-- The row loop of `MarketingMetricsModel.bulkInsert`, ignoring the
transaction wrapper: each metric is upserted in order. -/
def bulkInsertRows (accountId : String) (store : List MetricRow)
    (metrics : List MetricInput) : List MetricRow :=
  metrics.foldl (fun s m => upsertMetric s (toRow accountId m)) store

/-- Invariant of `marketing_daily_metrics`: at most one record per
(account, date, channel). -/
def uniqueKeys (store : List MetricRow) : Prop :=
  store.Pairwise fun a b => a.key ≠ b.key

/-- The `for` loop of `bulkInsert` running inside the transaction:
`failsOn` abstracts an individual INSERT failing (constraint violation,
connection loss, ...), which makes the whole call throw. -/
def runInserts (failsOn : MetricRow → Bool) (accountId : String) :
    List MetricRow → List MetricInput → Except String (List MetricRow)
  | txn, [] => .ok txn
  | txn, m :: rest =>
    let row := toRow accountId m
    if failsOn row then .error "insert failed"
    else runInserts failsOn accountId (upsertMetric txn row) rest

/-- `bulkInsert` with its `BEGIN`/`COMMIT`/`ROLLBACK` wrapper
(`MarketingMetrics.ts:32-75`): the loop runs against a transaction-local
copy of the store; `COMMIT` publishes it, the `catch` branch issues
`ROLLBACK` (restoring the store as it was) and rethrows the error, which
the second component carries. -/
def bulkInsertTxn (failsOn : MetricRow → Bool) (accountId : String)
    (store : List MetricRow) (metrics : List MetricInput) :
    List MetricRow × Option String :=
  match runInserts failsOn accountId store metrics with
  | .ok txn => (txn, none)
  | .error e => (store, some e)

/-! ### redis.ts: getCached / setCached and the cache middleware -/

/-- Embedding of `getCached(key)` (`src/backend/src/services/redis.ts`):
`read` is the outcome of the underlying connect-and-`GET` (`Except.error`
models a thrown redis error), `parse` the shape of `JSON.parse` on the
stored string (which may itself throw).  The surrounding `try`/`catch`
turns every failure into `null`. -/
def getCached {α : Type} (parse : String → Except Unit α)
    (read : Except Unit (Option String)) : Option α :=
  match read with
  | .error _ => none
  | .ok none => none
  | .ok (some s) =>
    match parse s with
    | .error _ => none
    | .ok v => some v

/-- Embedding of `setCached(key, value, ttl)`: the `try`/`catch` swallows
any outcome of the underlying `SETEX`, so the function always returns
normally. -/
def setCached (write : Except Unit Unit) : Unit :=
  match write with
  | .error _ => ()
  | .ok _ => ()

/-- Where the response body served by the cache middleware came from. -/
inductive MiddlewareResult (α : Type) where
  | fromCache (v : α)
  | fromHandler (v : α)
deriving DecidableEq, Repr

/-- Embedding of `cacheMiddleware` (`src/backend/src/middleware/cache.ts`):
non-GET requests skip the cache; a truthy cache hit is served directly;
otherwise the real handler runs and its body is returned unchanged — the
`setCached` fire-and-forget on that path (whose outcome `write` the
result visibly does not depend on) only populates the cache. -/
def cacheMiddleware {α : Type} (method : String) (truthy : α → Bool)
    (parse : String → Except Unit α) (read : Except Unit (Option String))
    (write : Except Unit Unit) (handlerBody : α) : MiddlewareResult α :=
  if method != "GET" then .fromHandler handlerBody
  else
    match getCached parse read with
    | some v => if truthy v then .fromCache v else .fromHandler handlerBody
    | none => .fromHandler handlerBody

/-! ### validation.ts: validateDateRange and the CSV upload row loop -/

/-- Proleptic-Gregorian leap year. -/
def isLeapYear (y : ℤ) : Bool :=
  (y % 4 == 0 && y % 100 != 0) || y % 400 == 0

/-- Length of month `m` of year `y`. -/
def daysInMonth (y : ℤ) (m : ℕ) : ℕ :=
  if m = 2 then (if isLeapYear y then 29 else 28)
  else if m = 4 ∨ m = 6 ∨ m = 9 ∨ m = 11 then 30
  else 31

/-- Day count since 1970-01-01 of a civil date (the days-from-civil
computation ECMAScript engines use for ISO date strings). -/
def daysFromCivil (y : ℤ) (m d : ℕ) : ℤ :=
  let yAdj : ℤ := if m ≤ 2 then y - 1 else y
  let era : ℤ := (if 0 ≤ yAdj then yAdj else yAdj - 399) / 400
  let yoe : ℤ := yAdj - era * 400
  let mp : ℤ := (((m : ℤ) + 9) % 12)
  let doy : ℤ := (153 * mp + 2) / 5 + (d : ℤ) - 1
  let doe : ℤ := yoe * 365 + yoe / 4 - yoe / 100 + doy
  era * 146097 + doe - 719468

/-- Numeric value of a decimal digit character. -/
def digitVal (c : Char) : Option ℕ :=
  if c.isDigit then some (c.toNat - 48) else none

/-- Model of `new Date(dateString)` for the `YYYY-MM-DD` strings the
upload pipeline feeds it (the `dateSchema` regex has already constrained
the shape): the day number of a well-formed in-range civil date, `none`
for anything the ISO parser rejects (modelling an Invalid Date / `NaN`
timestamp). -/
def parseDate (s : String) : Option ℤ :=
  match s.data with
  | [y1, y2, y3, y4, dash1, mo1, mo2, dash2, d1, d2] =>
    if dash1 = '-' ∧ dash2 = '-' then
      match digitVal y1, digitVal y2, digitVal y3, digitVal y4,
          digitVal mo1, digitVal mo2, digitVal d1, digitVal d2 with
      | some a, some b, some c, some d,
        some e, some f, some g, some h =>
        let y : ℤ := (a : ℤ) * 1000 + (b : ℤ) * 100 + (c : ℤ) * 10 + d
        let mo := e * 10 + f
        let dd := g * 10 + h
        if 1 ≤ mo ∧ mo ≤ 12 ∧ 1 ≤ dd ∧ dd ≤ daysInMonth y mo then
          some (daysFromCivil y mo dd)
        else none
      | _, _, _, _, _, _, _, _ => none
    else none
  | _ => none

/-- Embedding of `validateDateRange(date, maxDaysBack)`
(`src/backend/src/utils/validation.ts:13-32`).  Time is modelled at day
granularity: `now` is the current day number, and `maxDate` — computed in
the source by `setDate(getDate() - maxDaysBack)` — is `now - maxDaysBack`
days. -/
def validateDateRange (date : String) (now : ℤ) (maxDaysBack : ℤ := 730) :
    ValidationResult :=
  match parseDate date with
  | none => ⟨false, some "Invalid date format"⟩
  | some d =>
    if now < d then ⟨false, some "Date cannot be in the future"⟩
    else if d < now - maxDaysBack then
      ⟨false, some ("Date must be within last " ++ toString maxDaysBack ++ " days")⟩
    else ⟨true, none⟩

/-- An upload row after the zod `csvRowSchema` parse, restricted to the
fields that the date-range check can see. -/
structure CsvRow where
  date : String
  channel : String
  spend : ℚ
deriving DecidableEq, Repr

/-- The row loop of `POST /api/v1/uploads/csv` (`uploads.ts:80-114`)
restricted to the date-range check: a failing row is skipped and recorded
as the pair (CSV line number `i + 2`, error message); a passing row joins
the metrics to insert. -/
def processRows (now maxDaysBack : ℤ) :
    List CsvRow → ℕ → List CsvRow × List (ℕ × String)
  | [], _ => ([], [])
  | row :: rest, i =>
    let next := processRows now maxDaysBack rest (i + 1)
    let result := validateDateRange row.date now maxDaysBack
    if result.valid then (row :: next.1, next.2)
    else (next.1, (i + 2, result.error.getD "") :: next.2)

/-- Upload response as far as row validation decides it. -/
inductive UploadResp where
  | validationFailed (errors : List (ℕ × String))
  | completed (metrics : List CsvRow) (errors : List (ℕ × String))
deriving DecidableEq, Repr

/-- The decision at `uploads.ts:131-137`: HTTP 400 `CSV validation
failed` exactly when there are row errors and no valid row survived;
otherwise the upload proceeds with the surviving rows (reporting the
per-row errors alongside). -/
def uploadDecision (now maxDaysBack : ℤ) (rows : List CsvRow) : UploadResp :=
  let processed := processRows now maxDaysBack rows 0
  if processed.2 ≠ [] ∧ processed.1 = [] then .validationFailed processed.2
  else .completed processed.1 processed.2

/-! ### channelNormalization.ts -/

/-- Whitespace as matched by `\s` and by `trim()` for the inputs at hand
(space, tab, newline, carriage return). -/
def isWs (c : Char) : Bool :=
  c == ' ' || c == '\t' || c == '\n' || c == '\r'

/-- ASCII lower-casing of one character: `toLowerCase` restricted to the
ASCII range, which covers every channel alias in the global map. -/
def toLowerCh (c : Char) : Char :=
  if 65 ≤ c.toNat ∧ c.toNat ≤ 90 then Char.ofNat (c.toNat + 32) else c

/-- ASCII upper-casing of one character. -/
def toUpperCh (c : Char) : Char :=
  if 97 ≤ c.toNat ∧ c.toNat ≤ 122 then Char.ofNat (c.toNat - 32) else c

/-- `rawChannel.trim()` on the character list. -/
def trimList (l : List Char) : List Char :=
  ((l.dropWhile isWs).reverse.dropWhile isWs).reverse

/-- `rawChannel.trim()`. -/
def jsTrim (s : String) : String := ⟨trimList s.data⟩

/-- `s.toLowerCase()`. -/
def jsToLower (s : String) : String := ⟨s.data.map toLowerCh⟩

mutual

/-- `split(/\s+/)`, scanning inside a token whose characters so far are
`acc` (reversed); a whitespace character ends the token. -/
def splitWsGo : List Char → List Char → List (List Char)
  | [], acc => [acc.reverse]
  | c :: rest, acc =>
    if isWs c then acc.reverse :: splitWsSep rest
    else splitWsGo rest (c :: acc)

/-- `split(/\s+/)`, scanning inside a separator run: further whitespace
is absorbed into the same separator; a non-whitespace character starts
the next token; a run that reaches the end contributes a final empty
piece, as the JavaScript `split` does. -/
def splitWsSep : List Char → List (List Char)
  | [] => [[]]
  | c :: rest => if isWs c then splitWsSep rest else splitWsGo rest [c]

end

/-- `rawChannel.split(/\s+/)`. -/
def splitWs (l : List Char) : List (List Char) := splitWsGo l []

/-- `word.charAt(0).toUpperCase() + word.slice(1).toLowerCase()`. -/
def titleWord : List Char → List Char
  | [] => []
  | c :: rest => toUpperCh c :: rest.map toLowerCh

/-- `.join(' ')`. -/
def joinSp : List (List Char) → List Char
  | [] => []
  | [w] => w
  | w :: v :: rest => w ++ ' ' :: joinSp (v :: rest)

/-- The default branch of `normalizeChannel`: capitalize the first letter
of each whitespace-separated word of the raw (untrimmed) channel name. -/
def titleCaseWords (s : String) : String :=
  ⟨joinSp ((splitWs s.data).map titleWord)⟩

/-- The global `CHANNEL_MAP` of
`src/backend/src/utils/channelNormalization.ts`. -/
def CHANNEL_MAP : List (String × String) :=
  [("fb ads", "Facebook Ads"),
   ("facebook ads", "Facebook Ads"),
   ("fb", "Facebook Ads"),
   ("google ads", "Google Ads"),
   ("google", "Google Ads"),
   ("gads", "Google Ads"),
   ("linkedin", "LinkedIn Ads"),
   ("linkedin ads", "LinkedIn Ads"),
   ("twitter", "Twitter Ads"),
   ("twitter ads", "Twitter Ads"),
   ("x", "Twitter Ads"),
   ("instagram", "Instagram Ads"),
   ("instagram ads", "Instagram Ads"),
   ("tiktok", "TikTok Ads"),
   ("tiktok ads", "TikTok Ads"),
   ("snapchat", "Snapchat Ads"),
   ("snapchat ads", "Snapchat Ads"),
   ("pinterest", "Pinterest Ads"),
   ("pinterest ads", "Pinterest Ads"),
   ("bing", "Bing Ads"),
   ("bing ads", "Bing Ads"),
   ("email", "Email Marketing"),
   ("email marketing", "Email Marketing"),
   ("seo", "SEO"),
   ("organic", "Organic"),
   ("direct", "Direct"),
   ("referral", "Referral")]

/-- `CHANNEL_MAP[normalized]` — `undefined`, hence falsy, when the key is
absent (every stored value is a nonempty, hence truthy, string). -/
def lookupChannel (key : String) : Option String :=
  (CHANNEL_MAP.find? fun p => p.1 == key).map Prod.snd

/-- Embedding of `normalizeChannel(accountId, rawChannel)`
(`channelNormalization.ts:89-112`).  The account-specific
`channel_normalization` table read is abstracted as the lookup
`accountMap`, consulted first on the trimmed, lower-cased name. -/
def normalizeChannel (accountMap : String → Option String)
    (rawChannel : String) : String :=
  let normalized := jsToLower (jsTrim rawChannel)
  match accountMap normalized with
  | some v => v
  | none =>
    match lookupChannel normalized with
    | some v => v
    | none => titleCaseWords rawChannel

/-- The empty account-specific mapping (no rows in
`channel_normalization` for the account). -/
def noAccountMap : String → Option String := fun _ => none

/-- A word with no whitespace character in it. -/
def noWsL (w : List Char) : Bool := w.all fun c => !isWs c

/-- Every piece except possibly the last is nonempty. -/
def ablB : List (List Char) → Bool
  | [] => true
  | [_] => true
  | w :: v :: rest => !w.isEmpty && ablB (v :: rest)

end MarketingMix

namespace MarketingMix

/-! ### Theorems for the validators -/

/-- C1: the attribution minimum-data check accepts a list of date strings
if and only if it contains at least 60 unique dates; with fewer than 60
unique days it fails the precondition, with 60 or more it succeeds. -/
theorem validateMinimumDataDays_valid_iff (accountId : String)
    (dates : List String) :
    (validateMinimumDataDays accountId dates).valid = true ↔
      60 ≤ dates.dedup.length := by
  have hle : dates.dedup.length ≤ dates.length :=
    (List.dedup_sublist dates).length_le
  unfold validateMinimumDataDays
  split_ifs with h1 h2 <;> simp <;> omega

/-- C4 (counterexample): a requested horizon of `0` is outside the
inclusive range `[7, 90]`, yet the forecast route does not reject it:
`parseInt("0") || 30` silently replaces it by the default `30` and the
request is forwarded to the ML service. -/
theorem forecastHandler_zero_not_rejected :
    forecastHandler (some 0) = .proxy 30 ∧ (0 : ℤ) < 7 := by
  constructor
  · rfl
  · decide

/-- C4 (amended): the forecast route rejects a request with the 400 error
`Horizon must be between 7 and 90 days` exactly when the horizon query
parameter parses to a nonzero integer outside `[7, 90]`; a missing,
unparsable, or zero horizon silently defaults to 30, and every horizon
inside `[7, 90]` is forwarded unchanged, never rejected. -/
theorem forecastHandler_badRequest_iff (horizonParam : Option ℤ) :
    (forecastHandler horizonParam =
        .badRequest "Horizon must be between 7 and 90 days" ↔
      ∃ h, horizonParam = some h ∧ h ≠ 0 ∧ (h < 7 ∨ 90 < h)) ∧
    forecastHandler none = .proxy 30 ∧ forecastHandler (some 0) = .proxy 30 := by
  refine ⟨?_, rfl, rfl⟩
  match horizonParam with
  | none =>
    constructor
    · intro h
      simp [forecastHandler, effectiveHorizon] at h
    · rintro ⟨h, hcontra, -⟩
      exact absurd hcontra (by simp)
  | some n =>
    by_cases hn : n = 0
    · subst hn
      constructor
      · intro h
        simp [forecastHandler, effectiveHorizon] at h
      · rintro ⟨h, hh, hne, -⟩
        exact absurd (Option.some.inj hh).symm hne
    · constructor
      · intro h
        refine ⟨n, rfl, hn, ?_⟩
        by_contra hrange
        push_neg at hrange
        simp [forecastHandler, effectiveHorizon, hn] at h
        omega
      · rintro ⟨h, hh, hne, hrange⟩
        have : h = n := (Option.some.inj hh).symm
        subst this
        simp [forecastHandler, effectiveHorizon, hn]
        omega

/-- C5: the optimizer route rejects a request with the 400 error
`Budget must be greater than 0` exactly when the budget is missing, zero,
or negative; every strictly positive budget passes the check and is
forwarded to the ML service. -/
theorem optimizerHandler_badRequest_iff (budget : Option ℚ) :
    (optimizerHandler budget = .badRequest "Budget must be greater than 0" ↔
      budget = none ∨ ∃ b, budget = some b ∧ b ≤ 0) ∧
    (∀ b : ℚ, 0 < b → optimizerHandler (some b) = .proxy b) := by
  constructor
  · match budget with
    | none => simp [optimizerHandler]
    | some b =>
      by_cases hb : b ≤ 0
      · simp [optimizerHandler, hb]
      · constructor
        · intro h
          simp [optimizerHandler, hb] at h
        · rintro (h | ⟨c, hc, hc0⟩)
          · exact absurd h (by simp)
          · rw [Option.some.inj hc] at hb
            exact absurd hc0 hb
  · intro b hb
    simp [optimizerHandler, not_le.mpr hb]

/-- Witness for `optimizerHandler_badRequest_iff` at budget 1000. -/
theorem optimizerHandler_badRequest_iff_witness :
    optimizerHandler (some 1000) = .proxy 1000 :=
  (optimizerHandler_badRequest_iff (some 1000)).2 1000 (by norm_num)

/-! ### Theorems for the attribution job-status route -/

/-- C6: a stored attribution row whose expiration timestamp is in the past
never satisfies the cache query, and when every stored row for the
requested account and job id has expired, the job-status read falls
through to the ML service instead of serving a stored payload. -/
theorem attribution_expired_never_served (table : List AttributionRow)
    (a i : String) (now : ℤ) (ml : Except Unit MlStatus) :
    (∀ r ∈ cacheQuery table a i now, ∀ t, r.expires_at = some t → now < t) ∧
    ((∀ r ∈ table, r.account_id = a → r.id = i →
        ∃ t, r.expires_at = some t ∧ t ≤ now) →
      getAttributionHandler table a i now ml = mlFallback i ml) := by
  constructor
  · intro r hr t ht
    have hp := (List.mem_filter.mp hr).2
    simp only [Bool.and_eq_true] at hp
    have h3 := hp.2
    rw [ht] at h3
    simpa [notExpired] using h3
  · intro hall
    have hq : cacheQuery table a i now = [] := by
      rw [cacheQuery, List.filter_eq_nil_iff]
      intro r hr hp
      simp only [Bool.and_eq_true, beq_iff_eq] at hp
      obtain ⟨⟨h1, h2⟩, h3⟩ := hp
      obtain ⟨t, ht, hle⟩ := hall r hr h1 h2
      rw [ht] at h3
      simp [notExpired] at h3
      omega
    simp [getAttributionHandler, hq]

/-- Witness for `attribution_expired_never_served`: a result that expired
at time 5 is not served at time 10; the read falls through to the ML
service. -/
theorem attribution_expired_never_served_witness :
    getAttributionHandler [⟨"acct-1", "job-1", some 5, "stale-payload"⟩]
      "acct-1" "job-1" 10 (.ok ⟨"processing", none, some "still running"⟩) =
      mlFallback "job-1" (.ok ⟨"processing", none, some "still running"⟩) := by
  apply (attribution_expired_never_served _ _ _ _ _).2
  intro r hr h1 h2
  have := List.mem_singleton.mp hr
  subst this
  exact ⟨5, rfl, by norm_num⟩

/-- C2: evaluation of the job-status route at the failing input.  The
attribution job `job-1` belongs to `account-a` (its unexpired result row
is stored for that account), the caller is authenticated as `account-b`,
and the ML service — which the route hands only the job id, not the
caller's account — answers with the completed result.  The route forwards
`account-a`'s payload to `account-b` instead of failing with NotFound; in
fact `RouteResp` shows the handler has no NotFound branch on any path. -/
theorem attribution_cross_account_payload_leak :
    getAttributionHandler [⟨"account-a", "job-1", some 100, "payload-a"⟩]
      "account-b" "job-1" 0 (.ok ⟨"completed", some "payload-a", none⟩) =
      .success "payload-a" := by
  rfl

/-! ### Theorems for the metrics store -/

theorem key_update_invariant (row a : MetricRow) :
    (if a.key = row.key then updateFields a row else a).key = a.key := by
  split <;> rfl

theorem upsertMetric_uniqueKeys (store : List MetricRow) (row : MetricRow)
    (h : uniqueKeys store) : uniqueKeys (upsertMetric store row) := by
  unfold upsertMetric
  split
  case isTrue hany =>
    rw [uniqueKeys, List.pairwise_map]
    refine h.imp ?_
    intro a b hab
    rw [key_update_invariant, key_update_invariant]
    exact hab
  case isFalse hany =>
    rw [uniqueKeys, List.pairwise_append]
    refine ⟨h, by simp, ?_⟩
    intro a ha b hb
    have := List.mem_singleton.mp hb
    subst this
    intro hcontra
    apply hany
    exact List.any_eq_true.mpr ⟨a, ha, by simp [hcontra]⟩

theorem bulkInsertRows_uniqueKeys (accountId : String)
    (metrics : List MetricInput) :
    ∀ store : List MetricRow, uniqueKeys store →
      uniqueKeys (bulkInsertRows accountId store metrics) := by
  induction metrics with
  | nil => intro store h; exact h
  | cons m rest ih =>
    intro store h
    exact ih _ (upsertMetric_uniqueKeys _ _ h)

/-- C3: `bulkInsert` preserves the invariant that the metrics store holds
at most one record per (account, date, channel): starting from a store
satisfying the invariant, any list of input rows leaves it satisfied, and
an upsert whose key already exists updates the existing record in place,
leaving the number of records unchanged. -/
theorem bulkInsert_uniqueKeys (accountId : String) (store : List MetricRow)
    (metrics : List MetricInput) (row : MetricRow) (h : uniqueKeys store) :
    uniqueKeys (bulkInsertRows accountId store metrics) ∧
    ((store.any fun r => decide (r.key = row.key)) = true →
      (upsertMetric store row).length = store.length) := by
  refine ⟨bulkInsertRows_uniqueKeys accountId metrics store h, fun hmem => ?_⟩
  unfold upsertMetric
  rw [if_pos hmem]
  exact List.length_map _ _

/-- Witness for `bulkInsert_uniqueKeys`: two input rows with the same
(date, channel) key still leave the store with unique keys. -/
theorem bulkInsert_uniqueKeys_witness :
    uniqueKeys (bulkInsertRows "acct" []
      [⟨"2024-01-01", "Google Ads", 10, none, none, none, none, none, none⟩,
       ⟨"2024-01-01", "Google Ads", 20, none, none, none, none, none, none⟩]) :=
  (bulkInsert_uniqueKeys "acct" []
    [⟨"2024-01-01", "Google Ads", 10, none, none, none, none, none, none⟩,
     ⟨"2024-01-01", "Google Ads", 20, none, none, none, none, none, none⟩]
    (toRow "acct"
      ⟨"2024-01-01", "Google Ads", 10, none, none, none, none, none, none⟩)
    (by simp [uniqueKeys])).1

theorem runInserts_ok_eq (failsOn : MetricRow → Bool) (accountId : String) :
    ∀ (metrics : List MetricInput) (txn out : List MetricRow),
      runInserts failsOn accountId txn metrics = .ok out →
      out = bulkInsertRows accountId txn metrics := by
  intro metrics
  induction metrics with
  | nil =>
    intro txn out h
    simp [runInserts] at h
    rw [← h]
    rfl
  | cons m rest ih =>
    intro txn out h
    by_cases hf : failsOn (toRow accountId m)
    · simp [runInserts, hf] at h
    · simp only [runInserts, hf, if_neg, Bool.false_eq_true, if_false] at h
      exact ih _ _ h

/-- C8: `bulkInsert` is atomic.  If any row insert fails, the transaction
is rolled back: the committed store is exactly the store before the call
(and the error is rethrown); if no insert fails, the committed store is
exactly the full upsert fold over all input rows.  No proper subset of
the input rows is ever persisted. -/
theorem bulkInsertTxn_atomic (failsOn : MetricRow → Bool)
    (accountId : String) (store : List MetricRow)
    (metrics : List MetricInput) :
    ((bulkInsertTxn failsOn accountId store metrics).2.isSome = true →
      (bulkInsertTxn failsOn accountId store metrics).1 = store) ∧
    ((bulkInsertTxn failsOn accountId store metrics).2 = none →
      (bulkInsertTxn failsOn accountId store metrics).1 =
        bulkInsertRows accountId store metrics) := by
  rcases hrun : runInserts failsOn accountId store metrics with e | txn
  · constructor
    · intro _
      simp [bulkInsertTxn, hrun]
    · intro hc
      simp [bulkInsertTxn, hrun] at hc
  · constructor
    · intro hc
      simp [bulkInsertTxn, hrun] at hc
    · intro _
      simp only [bulkInsertTxn, hrun]
      exact runInserts_ok_eq failsOn accountId metrics store txn hrun

/-- Witness for `bulkInsertTxn_atomic`: with an INSERT that fails on
channel "bad", a two-row bulkInsert whose second row fails leaves the
(initially empty) committed store unchanged — the successfully inserted
first row is rolled back too. -/
theorem bulkInsertTxn_atomic_witness :
    (bulkInsertTxn (fun r => r.channel == "bad") "acct" []
      [⟨"2024-01-01", "Google Ads", 10, none, none, none, none, none, none⟩,
       ⟨"2024-01-02", "bad", 5, none, none, none, none, none, none⟩]).1 = [] :=
  (bulkInsertTxn_atomic (fun r => r.channel == "bad") "acct" []
    [⟨"2024-01-01", "Google Ads", 10, none, none, none, none, none, none⟩,
     ⟨"2024-01-02", "bad", 5, none, none, none, none, none, none⟩]).1
    (by rfl)

/-! ### Theorems for the cache layer -/

/-- C7: cache failures are invisible to the originating request.  When
the underlying read throws, `getCached` returns null instead of raising;
`setCached` returns normally whatever the underlying write does; and on a
failing read the middleware serves exactly the real handler's body — the
same response as if no cache existed. -/
theorem cache_best_effort {α : Type} (truthy : α → Bool)
    (parse : String → Except Unit α) (e readErr : Unit)
    (write : Except Unit Unit) (handlerBody : α) (method : String) :
    getCached parse (.error readErr) = none ∧
    setCached write = () ∧
    cacheMiddleware method truthy parse (.error e) write handlerBody =
      .fromHandler handlerBody := by
  refine ⟨rfl, rfl, ?_⟩
  unfold cacheMiddleware
  split
  · rfl
  · rfl

/-! ### Theorems for validateDateRange and the upload row loop -/

theorem processRows_spec (now maxDaysBack : ℤ) :
    ∀ (rows : List CsvRow) (i : ℕ),
      (processRows now maxDaysBack rows i).1 =
        rows.filter (fun r => (validateDateRange r.date now maxDaysBack).valid) ∧
      (processRows now maxDaysBack rows i).2.length =
        (rows.filter
          (fun r => !(validateDateRange r.date now maxDaysBack).valid)).length := by
  intro rows
  induction rows with
  | nil => intro i; exact ⟨rfl, rfl⟩
  | cons row rest ih =>
    intro i
    obtain ⟨ih1, ih2⟩ := ih (i + 1)
    by_cases hv : (validateDateRange row.date now maxDaysBack).valid = true
    · constructor
      · simp [processRows, hv, List.filter_cons, ih1]
      · simp [processRows, hv, List.filter_cons, ih2]
    · have hv' : (validateDateRange row.date now maxDaysBack).valid = false :=
        Bool.not_eq_true _ ▸ Bool.of_not_eq_true hv
      constructor
      · simp [processRows, hv', List.filter_cons, ih1]
      · simp [processRows, hv', List.filter_cons, ih2]

/-- C10 (counterexample): a CSV whose single row carries the out-of-range
date 2020-01-01 (day 18262), validated at day 19900 with the default
730-day window, is not merely skipped: with no valid row left, the whole
upload is rejected with the 400 `CSV validation failed` response, against
the claim that a failing row never aborts the upload. -/
theorem uploadDecision_single_bad_row_aborts :
    (validateDateRange "2020-01-01" 19900 730).valid = false ∧
    uploadDecision 19900 730 [⟨"2020-01-01", "Google Ads", 10⟩] =
      .validationFailed [(2, "Date must be within last 730 days")] := by
  constructor
  · rfl
  · rfl

/-- C10 (amended): `validateDateRange` accepts a date string (with
history bound `maxDaysBack`, default 730) exactly when it parses and its
day lies between `now - maxDaysBack` and `now` inclusive; in the upload
loop every row failing the check is skipped — the surviving metrics are
exactly the rows that pass — with one per-row error recorded per failing
row, and the upload as a whole is rejected only when there are errors and
no row at all survived. -/
theorem validateDateRange_spec (now maxDaysBack : ℤ) (date : String)
    (rows : List CsvRow) (i : ℕ) :
    ((validateDateRange date now maxDaysBack).valid = true ↔
      ∃ d, parseDate date = some d ∧ d ≤ now ∧ now - maxDaysBack ≤ d) ∧
    (processRows now maxDaysBack rows i).1 =
      rows.filter (fun r => (validateDateRange r.date now maxDaysBack).valid) ∧
    (processRows now maxDaysBack rows i).2.length =
      (rows.filter
        (fun r => !(validateDateRange r.date now maxDaysBack).valid)).length ∧
    ((∃ es, uploadDecision now maxDaysBack rows = .validationFailed es) ↔
      (processRows now maxDaysBack rows 0).2 ≠ [] ∧
        (processRows now maxDaysBack rows 0).1 = []) := by
  obtain ⟨hp1, hp2⟩ := processRows_spec now maxDaysBack rows i
  refine ⟨?_, hp1, hp2, ?_⟩
  · cases hd : parseDate date with
    | none => simp [validateDateRange, hd]
    | some d =>
      simp only [validateDateRange, hd]
      split_ifs with h1 h2 <;> simp <;> omega
  · by_cases hcond : (processRows now maxDaysBack rows 0).2 ≠ [] ∧
        (processRows now maxDaysBack rows 0).1 = []
    · simp only [uploadDecision, if_pos hcond]
      exact ⟨fun _ => hcond, fun _ => ⟨_, rfl⟩⟩
    · simp only [uploadDecision, if_neg hcond]
      constructor
      · rintro ⟨es, hes⟩
        cases hes
      · intro hc
        exact absurd hc hcond

/-! ### Theorems for channel normalization -/

theorem isWs_ofNat_lower (m : ℕ) (h1 : 97 ≤ m) (h2 : m ≤ 122) :
    isWs (Char.ofNat m) = false := by
  interval_cases m <;> decide

theorem isWs_ofNat_upper (m : ℕ) (h1 : 65 ≤ m) (h2 : m ≤ 90) :
    isWs (Char.ofNat m) = false := by
  interval_cases m <;> decide

theorem isWs_toLowerCh (c : Char) (h : isWs c = false) :
    isWs (toLowerCh c) = false := by
  unfold toLowerCh
  split
  · next hc => exact isWs_ofNat_lower _ (by omega) (by omega)
  · exact h

theorem isWs_toUpperCh (c : Char) (h : isWs c = false) :
    isWs (toUpperCh c) = false := by
  unfold toUpperCh
  split
  · next hc => exact isWs_ofNat_upper _ (by omega) (by omega)
  · exact h

theorem toLowerCh_ofNat_fixed (m : ℕ) (h1 : 97 ≤ m) (h2 : m ≤ 122) :
    toLowerCh (Char.ofNat m) = Char.ofNat m := by
  interval_cases m <;> decide

theorem toUpperCh_ofNat_fixed (m : ℕ) (h1 : 65 ≤ m) (h2 : m ≤ 90) :
    toUpperCh (Char.ofNat m) = Char.ofNat m := by
  interval_cases m <;> decide

theorem toLowerCh_eq_self (c : Char)
    (hc : ¬(65 ≤ c.toNat ∧ c.toNat ≤ 90)) : toLowerCh c = c := by
  unfold toLowerCh
  exact if_neg hc

theorem toUpperCh_eq_self (c : Char)
    (hc : ¬(97 ≤ c.toNat ∧ c.toNat ≤ 122)) : toUpperCh c = c := by
  unfold toUpperCh
  exact if_neg hc

theorem toLowerCh_idem (c : Char) : toLowerCh (toLowerCh c) = toLowerCh c := by
  by_cases hc : 65 ≤ c.toNat ∧ c.toNat ≤ 90
  · have h1 : toLowerCh c = Char.ofNat (c.toNat + 32) := by
      unfold toLowerCh
      exact if_pos hc
    rw [h1]
    exact toLowerCh_ofNat_fixed _ (by omega) (by omega)
  · rw [toLowerCh_eq_self c hc]
    exact toLowerCh_eq_self c hc

theorem toUpperCh_idem (c : Char) : toUpperCh (toUpperCh c) = toUpperCh c := by
  by_cases hc : 97 ≤ c.toNat ∧ c.toNat ≤ 122
  · have h1 : toUpperCh c = Char.ofNat (c.toNat - 32) := by
      unfold toUpperCh
      exact if_pos hc
    rw [h1]
    exact toUpperCh_ofNat_fixed _ (by omega) (by omega)
  · rw [toUpperCh_eq_self c hc]
    exact toUpperCh_eq_self c hc

theorem titleWord_idem (w : List Char) :
    titleWord (titleWord w) = titleWord w := by
  cases w with
  | nil => rfl
  | cons c rest =>
    simp only [titleWord, List.map_map, List.cons.injEq]
    refine ⟨toUpperCh_idem c, ?_⟩
    apply List.map_congr_left
    intro a _
    exact toLowerCh_idem a

theorem noWsL_titleWord (w : List Char) (h : noWsL w = true) :
    noWsL (titleWord w) = true := by
  cases w with
  | nil => rfl
  | cons c rest =>
    simp only [noWsL, titleWord, List.all_cons, List.all_map,
      Bool.and_eq_true, Bool.not_eq_true'] at h ⊢
    refine ⟨isWs_toUpperCh c h.1, ?_⟩
    rw [List.all_eq_true] at h ⊢
    intro a ha
    simp only [Function.comp, Bool.not_eq_true']
    have := h.2 a ha
    simp only [Bool.not_eq_true'] at this
    exact isWs_toLowerCh a this

theorem titleWord_isEmpty (w : List Char) :
    (titleWord w).isEmpty = w.isEmpty := by
  cases w <;> rfl

theorem ablB_map_titleWord (xs : List (List Char)) (h : ablB xs = true) :
    ablB (xs.map titleWord) = true := by
  induction xs with
  | nil => rfl
  | cons w rest ih =>
    cases rest with
    | nil => rfl
    | cons v rs =>
      simp only [ablB, Bool.and_eq_true, Bool.not_eq_true'] at h
      have := ih h.2
      simp only [List.map_cons, ablB, Bool.and_eq_true, Bool.not_eq_true']
      exact ⟨by rw [titleWord_isEmpty]; exact h.1, by simpa using this⟩

theorem splitWs_shape (l : List Char) :
    (∀ acc, noWsL acc = true →
      (splitWsGo l acc).all noWsL = true ∧
      ablB (splitWsGo l acc).tail = true ∧
      ∃ u t, splitWsGo l acc = (acc.reverse ++ u) :: t) ∧
    ((splitWsSep l).all noWsL = true ∧ ablB (splitWsSep l) = true) := by
  induction l with
  | nil =>
    constructor
    · intro acc hacc
      refine ⟨?_, rfl, [], [], by simp [splitWsGo]⟩
      simp only [splitWsGo, List.all_cons, List.all_nil, Bool.and_true]
      rw [noWsL] at hacc ⊢
      simpa using hacc
    · exact ⟨rfl, rfl⟩
  | cons c rest ih =>
    obtain ⟨ihGo, ihSep⟩ := ih
    constructor
    · intro acc hacc
      by_cases hc : isWs c = true
      · rw [show splitWsGo (c :: rest) acc = acc.reverse :: splitWsSep rest by
          simp [splitWsGo, hc]]
        refine ⟨?_, ihSep.2, [], splitWsSep rest, by simp⟩
        simp only [List.all_cons, Bool.and_eq_true]
        constructor
        · rw [noWsL] at hacc ⊢
          simpa using hacc
        · exact ihSep.1
      · have hc' : isWs c = false := by
          cases h : isWs c
          · rfl
          · exact absurd h hc
        have hacc' : noWsL (c :: acc) = true := by
          simp only [noWsL, List.all_cons, Bool.and_eq_true, Bool.not_eq_true']
          rw [noWsL] at hacc
          exact ⟨hc', hacc⟩
        rw [show splitWsGo (c :: rest) acc = splitWsGo rest (c :: acc) by
          simp [splitWsGo, hc']]
        obtain ⟨hall, htail, u, t, heq⟩ := ihGo (c :: acc) hacc'
        refine ⟨hall, htail, [c] ++ u, t, ?_⟩
        rw [heq]
        simp
    · by_cases hc : isWs c = true
      · rw [show splitWsSep (c :: rest) = splitWsSep rest by simp [splitWsSep, hc]]
        exact ihSep
      · have hc' : isWs c = false := by
          cases h : isWs c
          · rfl
          · exact absurd h hc
        rw [show splitWsSep (c :: rest) = splitWsGo rest [c] by
          simp [splitWsSep, hc']]
        have h1 : noWsL [c] = true := by simp [noWsL, hc']
        obtain ⟨hall, htail, u, t, heq⟩ := ihGo [c] h1
        refine ⟨hall, ?_⟩
        rw [heq] at htail ⊢
        simp only [List.reverse_cons, List.reverse_nil, List.nil_append,
          List.singleton_append, List.tail_cons] at htail ⊢
        cases t with
        | nil => rfl
        | cons t1 ts =>
          simp only [ablB, Bool.and_eq_true]
          exact ⟨by simp, htail⟩

theorem splitWsGo_append :
    ∀ (w l acc : List Char), noWsL w = true →
      splitWsGo (w ++ l) acc = splitWsGo l (w.reverse ++ acc) := by
  intro w
  induction w with
  | nil => intro l acc _; simp
  | cons c cs ih =>
    intro l acc hw
    simp only [noWsL, List.all_cons, Bool.and_eq_true, Bool.not_eq_true'] at hw
    rw [List.cons_append,
      show splitWsGo (c :: (cs ++ l)) acc = splitWsGo (cs ++ l) (c :: acc) by
        simp [splitWsGo, hw.1]]
    rw [ih l (c :: acc) hw.2]
    simp

theorem splitWsSep_joinSp :
    ∀ (rs : List (List Char)) (r : List Char),
      (r :: rs).all noWsL = true → ablB (r :: rs) = true →
      splitWsSep (joinSp (r :: rs)) = r :: rs := by
  intro rs
  induction rs with
  | nil =>
    intro r hall _
    simp only [List.all_cons, List.all_nil, Bool.and_true] at hall
    cases r with
    | nil => rfl
    | cons c cs =>
      have hr := hall
      simp only [noWsL, List.all_cons, Bool.and_eq_true,
        Bool.not_eq_true'] at hr
      rw [show joinSp [c :: cs] = c :: cs from rfl,
        show splitWsSep (c :: cs) = splitWsGo cs [c] by
          simp [splitWsSep, hr.1]]
      have h := splitWsGo_append cs [] [c] hr.2
      simp only [List.append_nil] at h
      rw [h]
      simp [splitWsGo]
  | cons r2 rs2 ih =>
    intro r hall habl
    simp only [List.all_cons, Bool.and_eq_true] at hall
    cases r with
    | nil => simp [ablB] at habl
    | cons c cs =>
      have hr := hall.1
      simp only [noWsL, List.all_cons, Bool.and_eq_true,
        Bool.not_eq_true'] at hr
      simp only [ablB, Bool.and_eq_true] at habl
      have hall2 : (r2 :: rs2).all noWsL = true := by
        simp only [List.all_cons, Bool.and_eq_true]
        exact hall.2
      rw [show joinSp ((c :: cs) :: r2 :: rs2) =
          c :: (cs ++ ' ' :: joinSp (r2 :: rs2)) from rfl,
        show splitWsSep (c :: (cs ++ ' ' :: joinSp (r2 :: rs2))) =
          splitWsGo (cs ++ ' ' :: joinSp (r2 :: rs2)) [c] by
            simp [splitWsSep, hr.1]]
      rw [splitWsGo_append cs _ [c] hr.2]
      rw [show splitWsGo (' ' :: joinSp (r2 :: rs2)) (cs.reverse ++ [c]) =
          (cs.reverse ++ [c]).reverse :: splitWsSep (joinSp (r2 :: rs2)) by
            simp [splitWsGo, isWs]]
      rw [ih r2 hall2 habl.2]
      simp

theorem splitWs_joinSp (w : List Char) (rest : List (List Char))
    (hw : noWsL w = true) (hrest : rest.all noWsL = true)
    (habl : ablB rest = true) :
    splitWs (joinSp (w :: rest)) = w :: rest := by
  cases rest with
  | nil =>
    unfold splitWs
    rw [show joinSp [w] = w from rfl]
    have h := splitWsGo_append w [] [] hw
    simp only [List.append_nil] at h
    rw [h]
    simp [splitWsGo]
  | cons r2 rs2 =>
    unfold splitWs
    rw [show joinSp (w :: r2 :: rs2) = w ++ ' ' :: joinSp (r2 :: rs2) from rfl]
    rw [splitWsGo_append w _ [] hw]
    rw [show splitWsGo (' ' :: joinSp (r2 :: rs2)) (w.reverse ++ []) =
        (w.reverse ++ []).reverse :: splitWsSep (joinSp (r2 :: rs2)) by
          simp [splitWsGo, isWs]]
    rw [splitWsSep_joinSp rs2 r2 hrest habl]
    simp

theorem titleCaseWords_idem (s : String) :
    titleCaseWords (titleCaseWords s) = titleCaseWords s := by
  obtain ⟨hall, htail, u, t, heq⟩ := (splitWs_shape s.data).1 [] rfl
  have heq' : splitWs s.data = u :: t := by simpa [splitWs] using heq
  rw [show splitWsGo s.data [] = splitWs s.data from rfl] at hall htail
  rw [heq'] at hall htail
  simp only [List.all_cons, Bool.and_eq_true] at hall
  simp only [List.tail_cons] at htail
  unfold titleCaseWords
  rw [heq']
  rw [show (String.mk (joinSp ((u :: t).map titleWord))).data =
      joinSp ((u :: t).map titleWord) from rfl]
  rw [List.map_cons]
  rw [splitWs_joinSp (titleWord u) (t.map titleWord)
    (noWsL_titleWord u hall.1)
    (by rw [List.all_map]
        rw [List.all_eq_true]
        intro a ha
        exact noWsL_titleWord a (List.all_eq_true.mp hall.2 a ha))
    (ablB_map_titleWord t htail)]
  rw [List.map_cons, titleWord_idem, List.map_map]
  rw [show List.map (titleWord ∘ titleWord) t = List.map titleWord t from
    List.map_congr_left fun a _ => titleWord_idem a]

theorem channelMap_values_fixed :
    ∀ p ∈ CHANNEL_MAP, normalizeChannel noAccountMap p.2 = p.2 := by
  decide

/-- C9 (counterexample): `normalizeChannel` with no account-specific
mapping is not idempotent.  The raw name `fb  ads` (two spaces) misses
the alias map — whose key is `fb ads` with a single space — and
title-cases to `Fb Ads`; but a second application lower-cases that to the
alias key `fb ads` and returns `Facebook Ads`. -/
theorem normalizeChannel_not_idempotent :
    normalizeChannel noAccountMap "fb  ads" = "Fb Ads" ∧
    normalizeChannel noAccountMap (normalizeChannel noAccountMap "fb  ads") =
      "Facebook Ads" ∧
    ("Facebook Ads" : String) ≠ "Fb Ads" := by
  refine ⟨by decide, by decide, by decide⟩

/-- C9 (amended): with no account-specific mapping, `normalizeChannel` is
deterministic, every canonical name in the global alias map normalizes to
itself, and the default title-casing is a fixed point — so a second
application returns the same string — for every raw name except the
unknown ones whose title-cased form lower-cases onto a global alias key
(whitespace collapsing can cause this, as in `fb  ads`); the hypothesis
excludes exactly that collision. -/
theorem normalizeChannel_idem (raw : String)
    (h : lookupChannel (jsToLower (jsTrim (titleCaseWords raw))) = none ∨
      lookupChannel (jsToLower (jsTrim raw)) ≠ none) :
    normalizeChannel noAccountMap (normalizeChannel noAccountMap raw) =
      normalizeChannel noAccountMap raw := by
  cases hopt : lookupChannel (jsToLower (jsTrim raw)) with
  | none =>
    have h1 : normalizeChannel noAccountMap raw = titleCaseWords raw := by
      simp [normalizeChannel, noAccountMap, hopt]
    rcases h with hnone | hcontra
    · rw [h1]
      have h2 : normalizeChannel noAccountMap (titleCaseWords raw) =
          titleCaseWords (titleCaseWords raw) := by
        simp [normalizeChannel, noAccountMap, hnone]
      rw [h2]
      exact titleCaseWords_idem raw
    · exact absurd hopt hcontra
  | some v =>
    have h1 : normalizeChannel noAccountMap raw = v := by
      simp [normalizeChannel, noAccountMap, hopt]
    rw [h1]
    have hmem : ∃ p ∈ CHANNEL_MAP, p.2 = v := by
      unfold lookupChannel at hopt
      cases hfind : CHANNEL_MAP.find? (fun p => p.1 == jsToLower (jsTrim raw)) with
      | none => rw [hfind] at hopt; simp at hopt
      | some p =>
        rw [hfind] at hopt
        simp at hopt
        exact ⟨p, List.mem_of_find?_eq_some hfind, hopt⟩
    obtain ⟨p, hp, hpv⟩ := hmem
    rw [← hpv]
    exact channelMap_values_fixed p hp

/-- Witness for `normalizeChannel_idem` at the alias `fb ads`. -/
theorem normalizeChannel_idem_witness :
    normalizeChannel noAccountMap (normalizeChannel noAccountMap "fb ads") =
      normalizeChannel noAccountMap "fb ads" :=
  normalizeChannel_idem "fb ads" (Or.inr (by decide))

end MarketingMix
